import Mathlib

/-!
Verification development for the turtle-backend screening engine.

The embedding models:
* `src/utils/indicators.ts` — `calculateWMA`, `calculateHMA`, `calculateRSI`,
  `isBullishCandle`, `isClosingAbovePreviousHigh`, `isHMACrossover`;
* `src/services/screeningService.ts` — the per-coin condition evaluation of the
  five screening strategies, the sequential scan loop with its progress counter,
  and the `screen` dispatcher.

Numbers are embedded as exact rationals.  JavaScript `NaN` (which arises in the
moving-average pipelines from insufficient lookback) is modelled explicitly as
`Option ℚ` with `none` for `NaN`; comparisons involving `NaN` are `false`, as in
JavaScript.  For the RSI computation, where division by a zero average loss
produces IEEE `Infinity` or `NaN` that then flows through further arithmetic, a
dedicated type `JSNum` models the finite/infinite/NaN alternatives exactly.
The network layer (coin-universe fetch and per-coin candle fetch) is modelled by
passing the fetched data as an explicit input list: each scan receives the list
of coins paired with the candle series the provider returned for that coin.
-/

namespace Turtle

/-- One daily OHLCV candle (`CandleData` in `src/types/screener.ts`).
Prices and volumes are exact rationals; the `candle_date_time_kst` sort key is
modelled by its epoch-milliseconds value as an integer. -/
structure Candle where
  candle_date_time_kst : ℤ
  opening_price : ℚ
  high_price : ℚ
  low_price : ℚ
  trade_price : ℚ
  candle_acc_trade_price : ℚ
  candle_acc_trade_volume : ℚ
deriving DecidableEq

/-- A market entry (`CoinInfo` in `src/types/screener.ts`). -/
structure CoinInfo where
  market : String
  korean_name : String
  english_name : String
deriving DecidableEq

/-- Derived metrics attached to some screening results. -/
structure Metrics where
  hma20 : Option ℚ
  volumeRatio : Option ℚ
deriving DecidableEq

/-- `ScreeningResult` from `src/types/screener.ts`. -/
structure ScreeningResult where
  coin : CoinInfo
  candles : List Candle
  conditions : List String
  currentPrice : Option ℚ
  metrics : Option Metrics
deriving DecidableEq

/-- A number-or-NaN value: `none` models JavaScript `NaN`. -/
abbrev JVal := Option ℚ

/-- JavaScript `<` on possibly-NaN values: any comparison with NaN is false. -/
def jlt (a b : JVal) : Bool :=
  match a, b with
  | some x, some y => decide (x < y)
  | _, _ => false

/-- JavaScript `>` on possibly-NaN values: any comparison with NaN is false. -/
def jgt (a b : JVal) : Bool :=
  match a, b with
  | some x, some y => decide (x > y)
  | _, _ => false

/-- The weight `Σ_{j<period} (period - j)` accumulated by the WMA loop. -/
def wmaWeight (period : ℕ) : ℚ :=
  ((List.range period).map (fun (j : ℕ) => ((period : ℚ) - (j : ℚ)))).sum

/-- One entry of `calculateWMA` (`src/utils/indicators.ts`): `NaN` when fewer
than `period` values precede index `i`, when any window value is `NaN` (the
JavaScript sum then becomes `NaN`), or when the weight is zero (`0/0`). -/
def wmaEntry (data : List JVal) (period i : ℕ) : JVal :=
  if i + 1 < period then none
  else if ((List.range period).map (fun j => data.getD (i - j) none)).any
      (fun v => v.isNone) then none
  else if wmaWeight period = 0 then none
  else some ((((List.range period).map
      (fun j => ((data.getD (i - j) none).getD 0) * ((period : ℚ) - (j : ℚ)))).sum)
    / wmaWeight period)

/-- `calculateWMA` from `src/utils/indicators.ts`: one output per input index. -/
def calculateWMA (data : List JVal) (period : ℕ) : List JVal :=
  (List.range data.length).map (fun i => wmaEntry data period i)

/-- Integer square root (`Math.floor(Math.sqrt n)`), written with structural
recursion so that it evaluates inside the kernel; it agrees with `Nat.sqrt`
(theorem `isqrt_eq_sqrt` below). -/
def isqrt : ℕ → ℕ
  | 0 => 0
  | n + 1 =>
    let r := isqrt n
    if (r + 1) * (r + 1) ≤ n + 1 then r + 1 else r

/-- `calculateHMA` from `src/utils/indicators.ts`:
`WMA(2*WMA(data, period/2) - WMA(data, period), floor(sqrt(period)))` with
`NaN` propagation in the middle map. -/
def calculateHMA (data : List JVal) (period : ℕ) : List JVal :=
  let halfPeriod := period / 2
  let sqrtPeriod := isqrt period
  let wma := calculateWMA data period
  let halfWma := calculateWMA data halfPeriod
  let rawHma := List.zipWith
    (fun hv wv =>
      match hv, wv with
      | some a, some b => some (2 * a - b)
      | _, _ => none)
    halfWma wma
  calculateWMA rawHma sqrtPeriod

/-- A JavaScript (IEEE-754 double) number with exact rational finite values:
finite, positive infinity, negative infinity, or NaN.  Used for the RSI
pipeline, where division by a zero average loss produces `Infinity` or `NaN`
values that flow through further arithmetic. -/
inductive JSNum where
  | fin : ℚ → JSNum
  | inf : JSNum
  | ninf : JSNum
  | nan : JSNum
deriving DecidableEq

namespace JSNum

/-- IEEE negation. -/
def neg : JSNum → JSNum
  | fin a => fin (-a)
  | inf => ninf
  | ninf => inf
  | nan => nan

/-- IEEE addition (signed zeros are identified with `0`). -/
def add : JSNum → JSNum → JSNum
  | fin a, fin b => fin (a + b)
  | fin _, inf => inf
  | fin _, ninf => ninf
  | inf, fin _ => inf
  | ninf, fin _ => ninf
  | inf, inf => inf
  | ninf, ninf => ninf
  | inf, ninf => nan
  | ninf, inf => nan
  | _, _ => nan

/-- IEEE subtraction. -/
def sub (a b : JSNum) : JSNum := add a (neg b)

/-- IEEE multiplication. -/
def mul : JSNum → JSNum → JSNum
  | fin a, fin b => fin (a * b)
  | fin a, inf => if a > 0 then inf else if a < 0 then ninf else nan
  | fin a, ninf => if a > 0 then ninf else if a < 0 then inf else nan
  | inf, fin b => if b > 0 then inf else if b < 0 then ninf else nan
  | ninf, fin b => if b > 0 then ninf else if b < 0 then inf else nan
  | inf, inf => inf
  | ninf, ninf => inf
  | inf, ninf => ninf
  | ninf, inf => ninf
  | _, _ => nan

/-- IEEE division (with `+0` denominators only — the embedding identifies the
signed zeros, which the RSI data flow never distinguishes). -/
def div : JSNum → JSNum → JSNum
  | fin a, fin b =>
      if b ≠ 0 then fin (a / b)
      else if a > 0 then inf else if a < 0 then ninf else nan
  | fin _, inf => fin 0
  | fin _, ninf => fin 0
  | inf, fin b => if b ≥ 0 then inf else ninf
  | ninf, fin b => if b ≥ 0 then ninf else inf
  | _, _ => nan

/-- JavaScript `>=`: false whenever either operand is NaN. -/
def ge (a b : JSNum) : Bool :=
  match a, b with
  | fin x, fin y => decide (x ≥ y)
  | fin _, inf => false
  | fin _, ninf => true
  | inf, fin _ => true
  | inf, inf => true
  | inf, ninf => true
  | ninf, ninf => true
  | ninf, _ => false
  | _, _ => false

end JSNum

/-- Reading `prices[i]` in JavaScript: out-of-bounds access yields `undefined`,
which behaves as `NaN` in the arithmetic that consumes it. -/
def jsIndex (prices : List ℚ) (i : ℕ) : JSNum :=
  match prices[i]? with
  | some p => JSNum.fin p
  | none => JSNum.nan

/-- The seed accumulation of `calculateRSI`: gains and losses over the first
`period` price changes (`for (let i = 1; i <= period; i++)`). -/
def rsiSeed (prices : List ℚ) (period : ℕ) : JSNum × JSNum :=
  (List.range period).foldl
    (fun gl k =>
      let change := JSNum.sub (jsIndex prices (k + 1)) (jsIndex prices k)
      if JSNum.ge change (JSNum.fin 0) then (JSNum.add gl.1 change, gl.2)
      else (gl.1, JSNum.sub gl.2 change))
    (JSNum.fin 0, JSNum.fin 0)

/-- The main loop body of `calculateRSI`: Wilder smoothing of the averages,
then `RSI = 100 - 100/(1 + avgGain/avgLoss)`, pushed once per index. -/
def rsiLoop (prices : List ℚ) (period : ℕ) (avgGain avgLoss : JSNum) :
    List ℕ → List JSNum
  | [] => []
  | i :: rest =>
      let change := JSNum.sub (jsIndex prices i) (jsIndex prices (i - 1))
      let currentGain := if JSNum.ge change (JSNum.fin 0) then change else JSNum.fin 0
      let currentLoss := if JSNum.ge change (JSNum.fin 0) then JSNum.fin 0 else JSNum.neg change
      let avgGain1 := JSNum.div
        (JSNum.add (JSNum.mul avgGain (JSNum.fin ((period : ℚ) - 1))) currentGain)
        (JSNum.fin (period : ℚ))
      let avgLoss1 := JSNum.div
        (JSNum.add (JSNum.mul avgLoss (JSNum.fin ((period : ℚ) - 1))) currentLoss)
        (JSNum.fin (period : ℚ))
      let rs := JSNum.div avgGain1 avgLoss1
      let currentRsi := JSNum.sub (JSNum.fin 100)
        (JSNum.div (JSNum.fin 100) (JSNum.add (JSNum.fin 1) rs))
      currentRsi :: rsiLoop prices period avgGain1 avgLoss1 rest

/-- `calculateRSI` from `src/utils/indicators.ts`: seed averages over the first
`period` changes, then one output per loop index
`i = period+1, …, prices.length-1`. -/
def calculateRSI (prices : List ℚ) (period : ℕ) : List JSNum :=
  let seed := rsiSeed prices period
  let avgGain := JSNum.div seed.1 (JSNum.fin (period : ℚ))
  let avgLoss := JSNum.div seed.2 (JSNum.fin (period : ℚ))
  rsiLoop prices period avgGain avgLoss
    (List.range' (period + 1) (prices.length - (period + 1)))

/-- `isBullishCandle`: close strictly above open. -/
def isBullishCandle (candle : Candle) : Bool :=
  decide (candle.trade_price > candle.opening_price)

/-- `isClosingAbovePreviousHigh`: current close strictly above previous high. -/
def isClosingAbovePreviousHigh (current previous : Candle) : Bool :=
  decide (current.trade_price > previous.high_price)

/-- `isHMACrossover`: price was below the average and is now above it.  The
moving-average arguments may be `NaN`, in which case the JavaScript comparisons
are false. -/
def isHMACrossover (prevPrice currentPrice prevHMA currentHMA : JVal) : Bool :=
  jlt prevPrice prevHMA && jgt currentPrice currentHMA

/-!
Per-coin condition evaluation, shared by the strategies exactly as the
corresponding expressions are duplicated inside `screenAllConditions`,
`screenHMACrossover` and `screenPremiumHMA` in
`src/services/screeningService.ts`.  The evaluators are only invoked by the
scan loops on series meeting the strategy's minimum length, so every direct
index access of the source is in bounds there; the `getD` fallbacks below are
never observable through the scans.
-/

/-- Fallback candle for the (scan-unreachable) out-of-bounds accesses. -/
def defaultCandle : Candle :=
  { candle_date_time_kst := 0, opening_price := 0, high_price := 0,
    low_price := 0, trade_price := 0, candle_acc_trade_price := 0,
    candle_acc_trade_volume := 0 }

/-- `candles.sort((a, b) => time(b) - time(a))`: stable sort, most recent
first.  JavaScript's `Array.prototype.sort` is stable, so it is modelled by a
stable sorting algorithm over the descending-time relation. -/
def normalizeCandles (candles : List Candle) : List Candle :=
  List.insertionSort
    (fun a b => b.candle_date_time_kst ≤ a.candle_date_time_kst) candles

/-- `closePrices`: trade prices re-ordered chronologically (oldest first). -/
def closePricesOf (candles : List Candle) : List ℚ :=
  (candles.map (fun c => c.trade_price)).reverse

/-- `hma20`: HMA(20) of the chronological closes, re-reversed so that index 0
is the most recent value. -/
def hma20Desc (candles : List Candle) : List JVal :=
  (calculateHMA ((closePricesOf candles).map some) 20).reverse

/-- `hma5`: HMA(5) of the chronological closes, re-reversed. -/
def hma5Desc (candles : List Candle) : List JVal :=
  (calculateHMA ((closePricesOf candles).map some) 5).reverse

/-- Condition 1: the previous completed day (index 1) closed above its open. -/
def condBullish (candles : List Candle) : Bool :=
  isBullishCandle (candles.getD 1 defaultCandle)

/-- Condition 2: previous close above the high of the day before it. -/
def condBreakout (candles : List Candle) : Bool :=
  isClosingAbovePreviousHigh (candles.getD 1 defaultCandle)
    (candles.getD 2 defaultCandle)

/-- Condition 3: close crossed above HMA(20) between index 1 and index 0. -/
def condHMACross (candles : List Candle) : Bool :=
  isHMACrossover (some (candles.getD 1 defaultCandle).trade_price)
    (some (candles.getD 0 defaultCandle).trade_price)
    ((hma20Desc candles).getD 1 none)
    ((hma20Desc candles).getD 0 none)

/-- `avgVolume`: mean of the first ten entries of the chronologically
re-ordered volume series (`volumes.slice(0, 10)` after `.reverse()`). -/
def avgVolume10 (candles : List Candle) : ℚ :=
  ((((candles.map (fun c => c.candle_acc_trade_volume)).reverse).take 10).foldl
    (fun sum vol => sum + vol) 0) / 10

/-- Additional condition 1: latest volume above 1.5 × `avgVolume`. -/
def condHighVolume (candles : List Candle) : Bool :=
  decide ((candles.getD 0 defaultCandle).candle_acc_trade_volume >
    avgVolume10 candles * (3 / 2))

/-- Additional condition 2: HMA(5) strictly increasing over the three most
recent aligned points (JavaScript comparisons, false on `NaN`). -/
def condUptrend (candles : List Candle) : Bool :=
  jgt ((hma5Desc candles).getD 0 none) ((hma5Desc candles).getD 1 none) &&
  jgt ((hma5Desc candles).getD 1 none) ((hma5Desc candles).getD 2 none)

/-- `breakoutStrength`: percentage by which the previous close exceeded the
prior high, `0` when there was no breakout.  The division is exact rational
arithmetic (the scans only ever divide by nonzero highs in practice). -/
def breakoutStrength (candles : List Candle) : ℚ :=
  if condBreakout candles then
    ((candles.getD 1 defaultCandle).trade_price -
      (candles.getD 2 defaultCandle).high_price) /
      (candles.getD 2 defaultCandle).high_price * 100
  else 0

/-- Additional condition 3: breakout strength above 2%. -/
def condStrongBreakout (candles : List Candle) : Bool :=
  decide (breakoutStrength candles > 2)

/-- The label list built by `screenAllConditions` in push order. -/
def allConditionLabels (candles : List Candle) : List String :=
  (if condBullish candles then ["전날 양봉"] else []) ++
  (if condBreakout candles then ["전날 종가가 전전날 최고가보다 높음"] else []) ++
  (if condHMACross candles then ["20 HMA 돌파"] else []) ++
  (if condHighVolume candles then ["거래량 증가"] else []) ++
  (if condUptrend candles then ["단기 상승 추세"] else []) ++
  (if condStrongBreakout candles then ["강한 돌파(2% 이상)"] else [])

/-- Per-coin body of `screenAllConditions`: pass when at least 2 of the three
base conditions and at least 1 of the three additional conditions hold. -/
def evalAllConditions (coin : CoinInfo) (candles : List Candle) :
    Option ScreeningResult :=
  let isHighVolume := condHighVolume candles
  let baseConditionsMet := decide (2 ≤
    (([condBullish candles, condBreakout candles, condHMACross candles]).filter
      (fun b => b)).length)
  let additionalConditionsMet := decide (1 ≤
    (([isHighVolume, condUptrend candles, condStrongBreakout candles]).filter
      (fun b => b)).length)
  if baseConditionsMet && additionalConditionsMet then
    some
      { coin := coin, candles := candles,
        conditions := allConditionLabels candles,
        currentPrice := some (candles.getD 0 defaultCandle).trade_price,
        metrics := some
          { hma20 := (hma20Desc candles).getD 0 none,
            volumeRatio :=
              if isHighVolume then
                some ((candles.getD 0 defaultCandle).candle_acc_trade_volume /
                  avgVolume10 candles)
              else none } }
  else none

/-- Per-coin body of `screenBullishBreakout`: both base conditions required. -/
def evalBullishBreakout (coin : CoinInfo) (candles : List Candle) :
    Option ScreeningResult :=
  if condBullish candles && condBreakout candles then
    some
      { coin := coin, candles := candles,
        conditions := ["전날 양봉", "전날 종가가 전전날 최고가보다 높음"],
        currentPrice := none, metrics := none }
  else none

/-- Per-coin body of `screenHMACrossover`: the crossover condition alone. -/
def evalHMACrossover (coin : CoinInfo) (candles : List Candle) :
    Option ScreeningResult :=
  if condHMACross candles then
    some
      { coin := coin, candles := candles, conditions := ["20 HMA 돌파"],
        currentPrice := none, metrics := none }
  else none

/-- Per-coin body of `screenPremiumHMA`: after a crossover, the volume and
uptrend labels are appended and the coin passes when the label list has all
three entries. -/
def evalPremiumHMA (coin : CoinInfo) (candles : List Candle) :
    Option ScreeningResult :=
  if condHMACross candles then
    let conditions := ["20 HMA 돌파"] ++
      (if condHighVolume candles then ["거래량 증가"] else []) ++
      (if condUptrend candles then ["단기 상승 추세"] else [])
    if conditions.length = 3 then
      some
        { coin := coin, candles := candles, conditions := conditions,
          currentPrice := some (candles.getD 0 defaultCandle).trade_price,
          metrics := some
            { hma20 := (hma20Desc candles).getD 0 none,
              volumeRatio :=
                some ((candles.getD 0 defaultCandle).candle_acc_trade_volume /
                  avgVolume10 candles) } }
    else none
  else none

/-- Per-coin body of `screenPremiumBullishBreakout`.  Its volume baseline uses
the raw descending series (no `.reverse()`): a 3-day average of the volumes at
descending indices 2, 3 and 4 compared against index 1. -/
def evalPremiumBullish (coin : CoinInfo) (candles : List Candle) :
    Option ScreeningResult :=
  let volumes := candles.map (fun c => c.candle_acc_trade_volume)
  let avgVolume := (volumes.getD 2 0 + volumes.getD 3 0 + volumes.getD 4 0) / 3
  let isVolumeIncreased := decide (volumes.getD 1 0 > avgVolume * (3 / 2))
  let strength :=
    ((candles.getD 1 defaultCandle).trade_price -
      (candles.getD 2 defaultCandle).high_price) /
      (candles.getD 2 defaultCandle).high_price * 100
  let isStrongBreakout := decide (strength > 2)
  if condBullish candles && condBreakout candles &&
      (isVolumeIncreased || isStrongBreakout) then
    some
      { coin := coin, candles := candles,
        conditions :=
          (if condBullish candles then ["전날 양봉"] else []) ++
          (if condBreakout candles then ["전날 종가가 전전날 최고가보다 높음"] else []) ++
          (if isVolumeIncreased then ["거래량 증가"] else []) ++
          (if isStrongBreakout then ["강한 돌파(2% 이상)"] else []),
        currentPrice := none, metrics := none }
  else none

/-!
The scan orchestrator.  Each `screenX` method fetches the coin universe, then
for each coin fetches its candle series; the fetched data is modelled as the
input list of coin/candle-series pairs.  The loop skips a coin whose series is
shorter than the strategy minimum with `continue` — which also jumps over the
progress assignment at the bottom of the loop body — and otherwise sorts the
series, evaluates the strategy, appends a passing result and sets
`progress = Math.floor(((i + 1) / totalCoins) * 100)` (exact integer-rational
arithmetic here, i.e. `(i + 1) * 100 / total` in ℕ).
-/

/-- The orchestrator state: the service-level progress counter and the results
accumulated so far. -/
structure ScanState where
  progress : ℕ
  results : List ScreeningResult
deriving DecidableEq

/-- One iteration of a scan loop over the indexed coin list. -/
def scanStep (total minLen : ℕ)
    (eval : CoinInfo → List Candle → Option ScreeningResult)
    (st : ScanState) (ic : ℕ × CoinInfo × List Candle) : ScanState :=
  if ic.2.2.length < minLen then st
  else
    { progress := (ic.1 + 1) * 100 / total,
      results := st.results ++ (eval ic.2.1 (normalizeCandles ic.2.2)).toList }

/-- A full scan: progress reset to 0, then the sequential loop. -/
def runScan (minLen : ℕ)
    (eval : CoinInfo → List Candle → Option ScreeningResult)
    (inputs : List (CoinInfo × List Candle)) : ScanState :=
  (inputs.enum).foldl (scanStep inputs.length minLen eval)
    { progress := 0, results := [] }

/-- The scan state after the first `k` loop iterations (intermediate states of
the same fold as `runScan`). -/
def runScanPrefix (minLen : ℕ)
    (eval : CoinInfo → List Candle → Option ScreeningResult)
    (inputs : List (CoinInfo × List Candle)) (k : ℕ) : ScanState :=
  ((inputs.enum).take k).foldl (scanStep inputs.length minLen eval)
    { progress := 0, results := [] }

/-- The indices (among the first `k`) of the coins the loop fully processed,
i.e. whose candle series met the strategy minimum. -/
def processedIdxs (minLen : ℕ) (inputs : List (CoinInfo × List Candle))
    (k : ℕ) : List ℕ :=
  (((inputs.enum).take k).filter
    (fun ic => !(decide (ic.2.2.length < minLen)))).map (fun ic => ic.1)

/-- The results a scan collects, in encounter order: the passing evaluations of
the sufficiently long series, in input order. -/
def encounterResults (minLen : ℕ)
    (eval : CoinInfo → List Candle → Option ScreeningResult)
    (inputs : List (CoinInfo × List Candle)) : List ScreeningResult :=
  ((inputs.enum).filter (fun ic => !(decide (ic.2.2.length < minLen)))).filterMap
    (fun ic => eval ic.2.1 (normalizeCandles ic.2.2))

/-- Descending comparison on the number of satisfied conditions, the order used
by the final `results.sort((a, b) => b.conditions.length - a.conditions.length)`
of `screenAllConditions`. -/
def condGE (a b : ScreeningResult) : Prop :=
  b.conditions.length ≤ a.conditions.length

instance : DecidableRel condGE := fun a b =>
  inferInstanceAs (Decidable (b.conditions.length ≤ a.conditions.length))

instance : IsTotal ScreeningResult condGE :=
  ⟨fun a b => Or.symm (Nat.le_total a.conditions.length b.conditions.length)⟩

instance : IsTrans ScreeningResult condGE :=
  ⟨fun _ _ _ h1 h2 => Nat.le_trans h2 h1⟩

/-- The final sort of `screenAllConditions`: stable (JavaScript
`Array.prototype.sort`), descending by number of satisfied conditions. -/
def sortByCondLen (results : List ScreeningResult) : List ScreeningResult :=
  List.insertionSort condGE results

/-- `screenAllConditions`: the combined-strategy scan plus its final sort. -/
def screenAllConditionsScan (inputs : List (CoinInfo × List Candle)) :
    ScanState :=
  let st := runScan 22 evalAllConditions inputs
  { progress := st.progress, results := sortByCondLen st.results }

/-- `screenBullishBreakout`: minimum 3 candles. -/
def screenBullishBreakoutScan (inputs : List (CoinInfo × List Candle)) :
    ScanState :=
  runScan 3 evalBullishBreakout inputs

/-- `screenHMACrossover`: minimum 22 candles. -/
def screenHMACrossoverScan (inputs : List (CoinInfo × List Candle)) :
    ScanState :=
  runScan 22 evalHMACrossover inputs

/-- `screenPremiumHMA`: minimum 22 candles. -/
def screenPremiumHMAScan (inputs : List (CoinInfo × List Candle)) :
    ScanState :=
  runScan 22 evalPremiumHMA inputs

/-- `screenPremiumBullishBreakout`: minimum 5 candles. -/
def screenPremiumBullishScan (inputs : List (CoinInfo × List Candle)) :
    ScanState :=
  runScan 5 evalPremiumBullish inputs

/-- The `screen(type)` dispatcher.  A valid name delegates to the matching scan
(which resets and then drives the service's progress field); any other name
throws `Invalid screening type: ${type}` before any fetch happens, leaving the
progress field at its prior value `prev`. -/
def screenDispatch (type : String) (inputs : List (CoinInfo × List Candle))
    (prev : ℕ) : Except String (List ScreeningResult) × ℕ :=
  if type = "all" then
    ((Except.ok (screenAllConditionsScan inputs).results),
      (screenAllConditionsScan inputs).progress)
  else if type = "bullish_breakout" then
    ((Except.ok (screenBullishBreakoutScan inputs).results),
      (screenBullishBreakoutScan inputs).progress)
  else if type = "hma_crossover" then
    ((Except.ok (screenHMACrossoverScan inputs).results),
      (screenHMACrossoverScan inputs).progress)
  else if type = "premium_hma" then
    ((Except.ok (screenPremiumHMAScan inputs).results),
      (screenPremiumHMAScan inputs).progress)
  else if type = "premium_bullish" then
    ((Except.ok (screenPremiumBullishScan inputs).results),
      (screenPremiumBullishScan inputs).progress)
  else
    (Except.error ("Invalid screening type: " ++ type), prev)

/-- `volume_surge` as the specification words it: the latest volume compared
against 1.5 × the average volume of the 10 most recent prior days (descending
indices 1..10).  This definition follows the spec's words, for comparison with
the implemented `condHighVolume`. -/
def volumeSurgeSpec (candles : List Candle) : Bool :=
  decide ((candles.getD 0 defaultCandle).candle_acc_trade_volume >
    3 / 2 * ((((candles.drop 1).take 10).map
      (fun c => c.candle_acc_trade_volume)).sum / 10))

/-!
### Concrete test fixtures
-/

/-- Shorthand candle constructor: sort key, open, high, close, volume. -/
def mkC (t : ℤ) (o h pr v : ℚ) : Candle :=
  { candle_date_time_kst := t, opening_price := o, high_price := h,
    low_price := 0, trade_price := pr, candle_acc_trade_price := 0,
    candle_acc_trade_volume := v }

/-- A sample market. -/
def coinA : CoinInfo :=
  { market := "KRW-AAA", korean_name := "가", english_name := "A" }

/-- 22 candles (descending) whose ten oldest days have volume 100, whose more
recent prior days have volume 2, and whose latest volume is 10: the
implementation's 10-oldest-days volume baseline (average 100) rejects the
volume-surge condition while the 10-most-recent-prior-days baseline
(average 2) would accept it. -/
def cex2 : List Candle :=
  [mkC 22 0 0 100 10] ++
  ((List.range 11).map (fun j => mkC (21 - (j : ℤ)) 0 0 100 2)) ++
  ((List.range 10).map (fun j => mkC (10 - (j : ℤ)) 0 0 100 100))

/-- 24 candles (descending): a long 200-plateau, a four-day dip to 100 — the
previous day bearish (open 120, close 100) and far below the prior high 150 —
then a final 300 spike with a volume surge.  The spike crosses HMA(20) from
below, HMA(5) is rising, and the ten oldest days have volume 1 against a
latest volume of 10: all three premium-HMA conditions hold while both
remaining base conditions of the combined strategy fail. -/
def cex3 : List Candle :=
  [mkC 24 0 0 300 10, mkC 23 120 0 100 0, mkC 22 0 150 100 0,
   mkC 21 0 0 100 0, mkC 20 0 0 100 0] ++
  ((List.range 9).map (fun j => mkC (19 - (j : ℤ)) 0 0 200 0)) ++
  ((List.range 10).map (fun j => mkC (10 - (j : ℤ)) 0 0 200 1))

/-- 22 constant candles (descending), the shortest series the 22-minimum
strategies process. -/
def flat22 : List Candle :=
  (List.range 22).map (fun j => mkC (22 - (j : ℤ)) 0 0 100 1)

/-- 23 constant candles (descending). -/
def flat23 : List Candle :=
  (List.range 23).map (fun j => mkC (23 - (j : ℤ)) 0 0 100 1)

/-!
### Lemmas: definedness structure of the moving averages
-/

theorem isqrt_eq_sqrt : ∀ n, isqrt n = Nat.sqrt n
  | 0 => rfl
  | n + 1 => by
    have ih := isqrt_eq_sqrt n
    show (let r := isqrt n; if (r + 1) * (r + 1) ≤ n + 1 then r + 1 else r) = _
    simp only [ih]
    have hmono : Nat.sqrt n ≤ Nat.sqrt (n + 1) := Nat.sqrt_le_sqrt (by omega)
    have hub : n < (Nat.sqrt n + 1) * (Nat.sqrt n + 1) := Nat.lt_succ_sqrt n
    split_ifs with h
    · have h1 : Nat.sqrt n + 1 ≤ Nat.sqrt (n + 1) := Nat.le_sqrt.mpr h
      have h2 : Nat.sqrt (n + 1) < Nat.sqrt n + 2 :=
        Nat.sqrt_lt.mpr (by nlinarith)
      omega
    · have h2 : Nat.sqrt (n + 1) < Nat.sqrt n + 1 := Nat.sqrt_lt.mpr (by omega)
      omega

theorem getD_eq_getElem_of_lt {α : Type} (l : List α) (d : α) {i : ℕ}
    (h : i < l.length) : l.getD i d = l[i] := by
  rw [List.getD_eq_getElem?_getD, List.getElem?_eq_getElem h, Option.getD_some]

theorem length_calculateWMA (data : List JVal) (period : ℕ) :
    (calculateWMA data period).length = data.length := by
  simp [calculateWMA]

theorem getD_calculateWMA (data : List JVal) (period : ℕ) {i : ℕ}
    (hi : i < data.length) :
    (calculateWMA data period).getD i none = wmaEntry data period i := by
  simp [calculateWMA, List.getD_eq_getElem?_getD, List.getElem?_map,
    List.getElem?_range hi]

theorem wmaWeight_pos (period : ℕ) (hp : 1 ≤ period) : 0 < wmaWeight period := by
  apply List.sum_pos
  · intro x hx
    rw [List.mem_map] at hx
    obtain ⟨j, hj, rfl⟩ := hx
    rw [List.mem_range] at hj
    have hq : (j : ℚ) < (period : ℚ) := by exact_mod_cast hj
    linarith
  · intro hcon
    rw [List.map_eq_nil_iff, List.range_eq_nil] at hcon
    omega

theorem wmaWindow_any_none (data : List JVal) (period i : ℕ) :
    ((List.range period).map (fun j => data.getD (i - j) none)).any
      (fun v => v.isNone) = true ↔
    ∃ j, j < period ∧ data.getD (i - j) none = none := by
  rw [List.any_eq_true]
  constructor
  · rintro ⟨v, hv, hvn⟩
    rw [List.mem_map] at hv
    obtain ⟨j, hj, rfl⟩ := hv
    rw [List.mem_range] at hj
    exact ⟨j, hj, Option.isNone_iff_eq_none.mp hvn⟩
  · rintro ⟨j, hj, hjn⟩
    refine ⟨data.getD (i - j) none,
      List.mem_map.mpr ⟨j, List.mem_range.mpr hj, rfl⟩, ?_⟩
    rw [hjn]
    rfl

theorem wmaEntry_ne_none_iff (data : List JVal) (period i : ℕ)
    (hp : 1 ≤ period) :
    wmaEntry data period i ≠ none ↔
      (period - 1 ≤ i ∧ ∀ j, j < period → data.getD (i - j) none ≠ none) := by
  unfold wmaEntry
  split_ifs with h1 h2 h3
  · simp only [ne_eq, not_true_eq_false, false_iff]
    rintro ⟨hle, -⟩
    omega
  · simp only [ne_eq, not_true_eq_false, false_iff]
    rintro ⟨-, hall⟩
    obtain ⟨j, hj, hjn⟩ := (wmaWindow_any_none data period i).mp h2
    exact hall j hj hjn
  · exact absurd h3 (ne_of_gt (wmaWeight_pos period hp))
  · simp only [ne_eq, reduceCtorEq, not_false_eq_true, true_iff]
    refine ⟨by omega, fun j hj hjn => ?_⟩
    exact h2 ((wmaWindow_any_none data period i).mpr ⟨j, hj, hjn⟩)

theorem wma_defined_iff (data : List JVal) (period K i : ℕ) (hp : 1 ≤ period)
    (hK : ∀ k, k < data.length → (data.getD k none ≠ none ↔ K ≤ k))
    (hi : i < data.length) :
    (calculateWMA data period).getD i none ≠ none ↔ K + (period - 1) ≤ i := by
  rw [getD_calculateWMA data period hi, wmaEntry_ne_none_iff data period i hp]
  constructor
  · rintro ⟨hpi, hall⟩
    have h1 := hall (period - 1) (by omega)
    rw [hK _ (by omega)] at h1
    omega
  · intro h
    refine ⟨by omega, fun j hj => ?_⟩
    rw [hK _ (by omega)]
    omega

theorem hmaMix_ne_none (o1 o2 : JVal) :
    (match o1, o2 with
     | some a, some b => some (2 * a - b)
     | _, _ => none) ≠ none ↔ (o1 ≠ none ∧ o2 ≠ none) := by
  cases o1 <;> cases o2 <;> simp

/-- The HMA pipeline written out without lets (definitionally equal). -/
theorem calculateHMA_eq (data : List JVal) (period : ℕ) :
    calculateHMA data period =
      calculateWMA
        (List.zipWith
          (fun hv wv =>
            match hv, wv with
            | some a, some b => some (2 * a - b)
            | _, _ => none)
          (calculateWMA data (period / 2)) (calculateWMA data period))
        (Nat.sqrt period) := by
  rw [← isqrt_eq_sqrt]
  rfl

theorem length_calculateHMA (data : List JVal) (period : ℕ) :
    (calculateHMA data period).length = data.length := by
  rw [calculateHMA_eq]
  simp [length_calculateWMA, List.length_zipWith]

/-- On an all-finite input series, an HMA value is defined exactly from
chronological index `period + √period - 2` on (for any period ≥ 2). -/
theorem hma_defined_iff (prices : List ℚ) (period : ℕ) {i : ℕ}
    (hp : 2 ≤ period) (hi : i < prices.length) :
    (calculateHMA (prices.map some) period).getD i none ≠ none ↔
      period + Nat.sqrt period - 2 ≤ i := by
  have hroot : 1 ≤ Nat.sqrt period := Nat.le_sqrt.mpr (by omega)
  have hbase : ∀ k, k < (prices.map some).length →
      ((prices.map some).getD k none ≠ none ↔ 0 ≤ k) := by
    intro k hk
    simp only [List.length_map] at hk
    simp [List.getD_eq_getElem?_getD, List.getElem?_map,
      List.getElem?_eq_getElem hk]
  have hlenf : (calculateWMA (prices.map some) period).length = prices.length := by
    simp [length_calculateWMA]
  have hlenh :
      (calculateWMA (prices.map some) (period / 2)).length = prices.length := by
    simp [length_calculateWMA]
  have hlenraw :
      (List.zipWith
        (fun hv wv =>
          match hv, wv with
          | some a, some b => some (2 * a - b)
          | _, _ => none)
        (calculateWMA (prices.map some) (period / 2))
        (calculateWMA (prices.map some) period)).length = prices.length := by
    simp [List.length_zipWith, hlenf, hlenh]
  have hKraw : ∀ k,
      k < (List.zipWith
        (fun hv wv =>
          match hv, wv with
          | some a, some b => some (2 * a - b)
          | _, _ => none)
        (calculateWMA (prices.map some) (period / 2))
        (calculateWMA (prices.map some) period)).length →
      ((List.zipWith
        (fun hv wv =>
          match hv, wv with
          | some a, some b => some (2 * a - b)
          | _, _ => none)
        (calculateWMA (prices.map some) (period / 2))
        (calculateWMA (prices.map some) period)).getD k none ≠ none ↔
        period - 1 ≤ k) := by
    intro k hk
    rw [hlenraw] at hk
    have hk1 : k < (calculateWMA (prices.map some) (period / 2)).length := by
      rw [hlenh]; exact hk
    have hk2 : k < (calculateWMA (prices.map some) period).length := by
      rw [hlenf]; exact hk
    have hhalf := wma_defined_iff (prices.map some) (period / 2) 0 k
      (by omega) hbase (by rw [List.length_map]; exact hk)
    have hfull := wma_defined_iff (prices.map some) period 0 k
      (by omega) hbase (by rw [List.length_map]; exact hk)
    rw [getD_eq_getElem_of_lt _ _ hk1] at hhalf
    rw [getD_eq_getElem_of_lt _ _ hk2] at hfull
    rw [List.getD_eq_getElem?_getD, List.getElem?_zipWith,
      List.getElem?_eq_getElem hk1, List.getElem?_eq_getElem hk2]
    show ((match (calculateWMA (prices.map some) (period / 2))[k],
        (calculateWMA (prices.map some) period)[k] with
      | some a, some b => some (2 * a - b)
      | _, _ => none) ≠ none) ↔ period - 1 ≤ k
    rw [hmaMix_ne_none, hhalf, hfull]
    omega
  rw [calculateHMA_eq]
  rw [wma_defined_iff _ (Nat.sqrt period) (period - 1) i hroot hKraw
    (by rw [hlenraw]; exact hi)]
  omega

theorem nat_sqrt_20 : Nat.sqrt 20 = 4 := by
  rw [← isqrt_eq_sqrt]
  decide

theorem getD_reverse {α : Type} (l : List α) (d : α) {i : ℕ}
    (h : i < l.length) :
    l.reverse.getD i d = l.getD (l.length - 1 - i) d := by
  rw [List.getD_eq_getElem?_getD, List.getD_eq_getElem?_getD,
    List.getElem?_reverse h]

theorem length_closePricesOf (candles : List Candle) :
    (closePricesOf candles).length = candles.length := by
  simp [closePricesOf]

theorem length_hma20Desc (candles : List Candle) :
    (hma20Desc candles).length = candles.length := by
  simp [hma20Desc, length_calculateHMA, length_closePricesOf]

theorem length_normalizeCandles (candles : List Candle) :
    (normalizeCandles candles).length = candles.length :=
  List.length_insertionSort _ _

/-- Definedness of the evaluator's descending-aligned HMA(20): descending
index `d` is defined exactly when its chronological index is at least 22. -/
theorem hma20Desc_defined_iff (candles : List Candle) (d : ℕ)
    (hd : d < candles.length) :
    (hma20Desc candles).getD d none ≠ none ↔
      22 ≤ candles.length - 1 - d := by
  unfold hma20Desc
  have hlen :
      (calculateHMA ((closePricesOf candles).map some) 20).length =
        candles.length := by
    rw [length_calculateHMA, List.length_map, length_closePricesOf]
  rw [getD_reverse _ _ (by rw [hlen]; exact hd), hlen]
  rw [hma_defined_iff (closePricesOf candles) 20 (by omega)
    (by rw [length_closePricesOf]; omega)]
  rw [nat_sqrt_20]

theorem hma20Desc_getD_one_none (candles : List Candle)
    (h : candles.length ≤ 23) : (hma20Desc candles).getD 1 none = none := by
  by_cases h2 : 2 ≤ candles.length
  · by_contra hne
    have := (hma20Desc_defined_iff candles 1 (by omega)).mp hne
    omega
  · rw [List.getD_eq_getElem?_getD,
      List.getElem?_eq_none (by rw [length_hma20Desc]; omega)]
    rfl

/-- With 23 or fewer candles the previous-day HMA(20) value is `NaN`, so the
crossover condition is false. -/
theorem condHMACross_eq_false (candles : List Candle)
    (h : candles.length ≤ 23) : condHMACross candles = false := by
  unfold condHMACross isHMACrossover
  rw [hma20Desc_getD_one_none candles h]
  rfl

theorem evalPremiumHMA_eq_none_of_short (coin : CoinInfo)
    (candles : List Candle) (h : candles.length ≤ 23) :
    evalPremiumHMA coin candles = none := by
  unfold evalPremiumHMA
  rw [condHMACross_eq_false candles h]
  rfl

theorem evalHMACrossover_eq_none_of_short (coin : CoinInfo)
    (candles : List Candle) (h : candles.length ≤ 23) :
    evalHMACrossover coin candles = none := by
  unfold evalHMACrossover
  rw [condHMACross_eq_false candles h]
  rfl

/-!
### Lemmas: the scan loop
-/

theorem results_foldl (total minLen : ℕ)
    (eval : CoinInfo → List Candle → Option ScreeningResult)
    (L : List (ℕ × CoinInfo × List Candle)) :
    ∀ st : ScanState,
    (L.foldl (scanStep total minLen eval) st).results =
      st.results ++
        (L.filter (fun ic => !(decide (ic.2.2.length < minLen)))).filterMap
          (fun ic => eval ic.2.1 (normalizeCandles ic.2.2)) := by
  induction L with
  | nil => intro st; simp
  | cons a L ih =>
    intro st
    rw [List.foldl_cons, ih]
    by_cases h : a.2.2.length < minLen
    · have hstep : scanStep total minLen eval st a = st := by
        unfold scanStep
        rw [if_pos h]
      rw [hstep, List.filter_cons, if_neg (by simp [h])]
    · have hstep : (scanStep total minLen eval st a).results =
          st.results ++ (eval a.2.1 (normalizeCandles a.2.2)).toList := by
        unfold scanStep
        rw [if_neg h]
      rw [hstep, List.filter_cons, if_pos (by simp [h]), List.filterMap_cons]
      cases eval a.2.1 (normalizeCandles a.2.2) <;> simp

theorem runScan_results (minLen : ℕ)
    (eval : CoinInfo → List Candle → Option ScreeningResult)
    (inputs : List (CoinInfo × List Candle)) :
    (runScan minLen eval inputs).results =
      encounterResults minLen eval inputs := by
  unfold runScan encounterResults
  rw [results_foldl]
  rfl

theorem progress_foldl (total minLen : ℕ)
    (eval : CoinInfo → List Candle → Option ScreeningResult)
    (L : List (ℕ × CoinInfo × List Candle)) :
    ∀ st : ScanState,
    (L.foldl (scanStep total minLen eval) st).progress =
      ((((L.filter (fun ic => !(decide (ic.2.2.length < minLen)))).map
        (fun ic => ic.1)).getLast?).map
        (fun j => (j + 1) * 100 / total)).getD st.progress := by
  induction L with
  | nil => intro st; rfl
  | cons a L ih =>
    intro st
    rw [List.foldl_cons, ih]
    by_cases h : a.2.2.length < minLen
    · have hstep : scanStep total minLen eval st a = st := by
        unfold scanStep
        rw [if_pos h]
      rw [hstep, List.filter_cons, if_neg (by simp [h])]
    · have hstep : (scanStep total minLen eval st a).progress =
          (a.1 + 1) * 100 / total := by
        unfold scanStep
        rw [if_neg h]
      rw [hstep, List.filter_cons, if_pos (by simp [h]), List.map_cons,
        List.getLast?_cons]
      cases hlast : ((L.filter (fun ic => !(decide (ic.2.2.length < minLen)))).map
          (fun ic => ic.1)).getLast? with
      | none => simp
      | some j => simp

/-!
### Lemmas: stability of the final sort
-/

theorem filter_orderedInsert_len (k : ℕ) (a : ScreeningResult) :
    ∀ L : List ScreeningResult,
    (List.orderedInsert condGE a L).filter
        (fun r => decide (r.conditions.length = k)) =
      if a.conditions.length = k then
        a :: L.filter (fun r => decide (r.conditions.length = k))
      else L.filter (fun r => decide (r.conditions.length = k)) := by
  intro L
  induction L with
  | nil =>
    by_cases hpa : a.conditions.length = k <;> simp [hpa]
  | cons b L ih =>
    rw [List.orderedInsert]
    by_cases hab : condGE a b
    · rw [if_pos hab]
      by_cases hpa : a.conditions.length = k <;>
        simp [List.filter_cons, hpa]
    · rw [if_neg hab]
      by_cases hpa : a.conditions.length = k
      · have hpb : ¬(b.conditions.length = k) := by
          intro hpb
          exact hab (by unfold condGE; omega)
        rw [if_pos hpa]
        rw [List.filter_cons, if_neg (by simp [hpb])]
        rw [ih, if_pos hpa]
        rw [List.filter_cons, if_neg (by simp [hpb])]
      · rw [if_neg hpa]
        rw [List.filter_cons]
        rw [ih, if_neg hpa]
        rw [List.filter_cons]

theorem filter_sortByCondLen (k : ℕ) :
    ∀ L : List ScreeningResult,
    (sortByCondLen L).filter (fun r => decide (r.conditions.length = k)) =
      L.filter (fun r => decide (r.conditions.length = k)) := by
  intro L
  induction L with
  | nil => rfl
  | cons a L ih =>
    show (List.orderedInsert condGE a (List.insertionSort condGE L)).filter
        (fun r => decide (r.conditions.length = k)) = _
    rw [filter_orderedInsert_len]
    by_cases hpa : a.conditions.length = k
    · rw [if_pos hpa, List.filter_cons, if_pos (by simp [hpa])]
      rw [show List.insertionSort condGE L = sortByCondLen L from rfl, ih]
    · rw [if_neg hpa, List.filter_cons, if_neg (by simp [hpa])]
      rw [show List.insertionSort condGE L = sortByCondLen L from rfl, ih]

theorem rsiLoop_length (prices : List ℚ) (period : ℕ) :
    ∀ (idxs : List ℕ) (avgGain avgLoss : JSNum),
      (rsiLoop prices period avgGain avgLoss idxs).length = idxs.length := by
  intro idxs
  induction idxs with
  | nil => intro g l; rfl
  | cons i rest ih =>
    intro g l
    rw [rsiLoop, List.length_cons, List.length_cons, ih]

/-!
### Claims
-/

/-- **C1, counterexample.**  The claim says that after processing coin `i` of
`total` — pass, fail, or skip alike — progress equals
`floor(((i+1)/total)*100)`.  On a one-coin universe whose candle series is too
short, the `continue` skips the progress assignment, so after coin 0 the
progress is still 0, not `floor((1/1)*100) = 100`. -/
theorem c1_progress_claim_counterexample :
    (screenAllConditionsScan [(coinA, [])]).progress ≠ (0 + 1) * 100 / 1 := by
  decide

/-- **C1, amended.**  A coin whose candle series is shorter than the
strategy's minimum is skipped without affecting the progress denominator and
WITHOUT advancing progress: the `continue` jumps over the progress
assignment.  After the first `k` loop iterations of any scan, progress equals
`floor(((j+1)/total)*100)` where `j` is the index of the last fully processed
(non-skipped) coin among them, and retains its initial value 0 when none was
processed. -/
theorem c1_progress_skip_amended (minLen : ℕ)
    (eval : CoinInfo → List Candle → Option ScreeningResult)
    (inputs : List (CoinInfo × List Candle)) (k : ℕ) :
    (runScanPrefix minLen eval inputs k).progress =
      (((processedIdxs minLen inputs k).getLast?).map
        (fun j => (j + 1) * 100 / inputs.length)).getD 0 := by
  unfold runScanPrefix processedIdxs
  exact progress_foldl inputs.length minLen eval _ _

/-- **C2, counterexample.**  The claim says the volume-surge condition holds
exactly when the latest volume exceeds 1.5 × the average volume of the 10
most recent prior days.  On `cex2` the implementation compares against the 10
chronologically OLDEST candles (average 100, so no surge) while the claimed
baseline (average 2) would report a surge. -/
theorem c2_volume_surge_counterexample :
    ¬((condHighVolume cex2 = true) ↔ (volumeSurgeSpec cex2 = true)) :=
  of_decide_eq_true (by with_unfolding_all rfl)

/-- **C2, amended.**  The volume-surge condition holds exactly when the most
recent candle's volume exceeds 1.5 times the average volume of the ten
chronologically oldest candles of the series (`volumes.reverse().slice(0,10)`
takes the first ten of the chronologically re-ordered series). -/
theorem c2_volume_surge_amended (candles : List Candle) :
    condHighVolume candles = true ↔
      (candles.getD 0 defaultCandle).candle_acc_trade_volume >
        3 / 2 * ((((candles.reverse).take 10).map
          (fun c => c.candle_acc_trade_volume)).sum / 10) := by
  unfold condHighVolume avgVolume10
  rw [decide_eq_true_eq]
  have hlist :
      (((candles.map (fun c => c.candle_acc_trade_volume)).reverse).take 10) =
        (((candles.reverse).take 10).map
          (fun c => c.candle_acc_trade_volume)) := by
    rw [← List.map_reverse, List.map_take]
  have hsum :
      ((((candles.map (fun c => c.candle_acc_trade_volume)).reverse).take
        10).foldl (fun sum vol => sum + vol) 0) =
      ((((candles.reverse).take 10).map
        (fun c => c.candle_acc_trade_volume)).sum) := by
    rw [List.sum_eq_foldl, hlist]
  rw [hsum]
  constructor
  · intro hgt
    linarith
  · intro hgt
    linarith

/-- **C4, counterexample.**  The claim says RSI output has length
`n - period` whenever `n > period`.  For `prices = [1, 2]` and `period = 1`
the loop runs from index 2 and immediately stops: the output is empty, not of
length `2 - 1 = 1`. -/
theorem c4_rsi_length_counterexample :
    (calculateRSI [1, 2] 1).length ≠ 2 - 1 := by
  decide

/-- **C4, amended.**  The RSI loop pushes one value per index
`i = period+1, …, n-1`: the output always has length `n - (period + 1)`
(truncated subtraction), with the first output corresponding to input index
`period + 1`. -/
theorem c4_rsi_length_amended (prices : List ℚ) (period : ℕ) :
    (calculateRSI prices period).length = prices.length - (period + 1) := by
  simp only [calculateRSI]
  rw [rsiLoop_length, List.length_range']

/-- **C5.**  The spec mandates that a zero average loss yield RSI = 100
deterministically, with no NaN.  The source does not guard the division: for
the constant price series `[1, 1, 1]` with `period = 1`, the step has
`avgLoss = 0` AND `avgGain = 0`, so `rs = 0/0 = NaN` and the emitted RSI
value is NaN, not 100. -/
theorem c5_rsi_nan_at_failing_input :
    calculateRSI [1, 1, 1] 1 = [JSNum.nan] :=
  of_decide_eq_true (by with_unfolding_all rfl)

/-- **C6, counterexample.**  The claim quantifies over every period.  For
`period = 1` (where `half = 0` makes the half-period WMA all-NaN) the formula
`period + root - 2 = 0` would make index 0 of `HMA([5], 1)` defined, but it
is NaN. -/
theorem c6_hma_definedness_counterexample :
    ¬(((calculateHMA (([5] : List ℚ).map some) 1).getD 0 none ≠ none) ↔
      1 + Nat.sqrt 1 - 2 ≤ 0) := by
  rw [show Nat.sqrt 1 = 1 by rw [← isqrt_eq_sqrt]; decide]
  exact of_decide_eq_true (by with_unfolding_all rfl)

/-- **C6, amended.**  For every all-finite input series and every
`period ≥ 2` (with `root = floor(sqrt(period))`), `HMA(series, period)[i]` is
defined exactly for chronological indices `i ≥ period + root - 2`; all
earlier positions are NaN. -/
theorem c6_hma_definedness_amended (prices : List ℚ) (period i : ℕ)
    (hp : 2 ≤ period) (hi : i < prices.length) :
    (calculateHMA (prices.map some) period).getD i none ≠ none ↔
      period + Nat.sqrt period - 2 ≤ i :=
  hma_defined_iff prices period hp hi

/-- **C6, witness.**  At `period = 20` on a 23-value series, index 22 is the
first defined HMA position (`20 + 4 - 2 = 22`). -/
theorem c6_hma_definedness_amended_witness :
    (calculateHMA ((List.replicate 23 (100 : ℚ)).map some) 20).getD 22
      none ≠ none := by
  have h := c6_hma_definedness_amended (List.replicate 23 100) 20 22
    (by omega) (by simp)
  rw [h, nat_sqrt_20]

set_option maxRecDepth 100000 in
/-- **C3, counterexample.**  The claim says every series passing
`premium_hma` also passes the `all` strategy's combination rule.  On `cex3`
all three premium conditions hold, but the previous day is bearish and below
the prior high: only 1 of the `all` strategy's 3 base conditions holds, short
of the required 2, so `all` fails while `premium_hma` passes. -/
theorem c3_premium_not_stricter_counterexample :
    (evalPremiumHMA coinA cex3).isSome = true ∧
    (evalAllConditions coinA cex3).isSome = false :=
  ⟨of_decide_eq_true (by with_unfolding_all rfl),
   of_decide_eq_true (by with_unfolding_all rfl)⟩

/-- **C3, amended.**  `premium_hma` passes exactly when `hma20_crossover`,
`volume_surge` and `short_term_uptrend` all hold; but it is NOT stricter than
`all`: the three premium conditions supply only one of `all`'s base
conditions, so a premium-passing series passes `all` exactly when at least
one of `previous_day_bullish` / `breakout_above_prior_high` also holds. -/
theorem c3_premium_rule_amended (coin : CoinInfo) (candles : List Candle) :
    ((evalPremiumHMA coin candles).isSome =
      (condHMACross candles &&
        (condHighVolume candles && condUptrend candles)))
    ∧ ((evalPremiumHMA coin candles).isSome = true →
      ((evalAllConditions coin candles).isSome =
        (condBullish candles || condBreakout candles))) := by
  have h1 : (evalPremiumHMA coin candles).isSome =
      (condHMACross candles &&
        (condHighVolume candles && condUptrend candles)) := by
    unfold evalPremiumHMA
    cases hcross : condHMACross candles <;>
      cases hvol : condHighVolume candles <;>
      cases hup : condUptrend candles <;>
      simp
  refine ⟨h1, fun hsome => ?_⟩
  rw [h1] at hsome
  simp only [Bool.and_eq_true] at hsome
  obtain ⟨hcross, hvol, hup⟩ := hsome
  unfold evalAllConditions
  rw [hcross, hvol, hup]
  cases hbull : condBullish candles <;>
    cases hbreak : condBreakout candles <;>
    cases hstrong : condStrongBreakout candles <;>
    simp

set_option maxRecDepth 100000 in
/-- **C3, witness.**  On `cex3`, the premium strategy passes, so the
amended equivalence applies: `all` passes exactly when a second base
condition holds (here neither does). -/
theorem c3_premium_rule_amended_witness :
    (evalAllConditions coinA cex3).isSome =
      (condBullish cex3 || condBreakout cex3) :=
  (c3_premium_rule_amended coinA cex3).2
    (of_decide_eq_true (by with_unfolding_all rfl))

/-- **C7.**  The `all` strategy returns its results sorted descending by the
number of satisfied conditions, as a stable permutation of the encounter
order (results with any fixed condition count appear exactly in encounter
order); every other strategy returns its results in encounter order. -/
theorem c7_result_ordering (inputs : List (CoinInfo × List Candle)) :
    List.Sorted condGE (screenAllConditionsScan inputs).results
    ∧ (screenAllConditionsScan inputs).results.Perm
        (encounterResults 22 evalAllConditions inputs)
    ∧ (∀ k : ℕ, (screenAllConditionsScan inputs).results.filter
          (fun r => decide (r.conditions.length = k)) =
        (encounterResults 22 evalAllConditions inputs).filter
          (fun r => decide (r.conditions.length = k)))
    ∧ (screenBullishBreakoutScan inputs).results =
        encounterResults 3 evalBullishBreakout inputs
    ∧ (screenHMACrossoverScan inputs).results =
        encounterResults 22 evalHMACrossover inputs
    ∧ (screenPremiumHMAScan inputs).results =
        encounterResults 22 evalPremiumHMA inputs
    ∧ (screenPremiumBullishScan inputs).results =
        encounterResults 5 evalPremiumBullish inputs := by
  have hall : (screenAllConditionsScan inputs).results =
      sortByCondLen (runScan 22 evalAllConditions inputs).results := rfl
  refine ⟨?_, ?_, ?_, runScan_results _ _ _, runScan_results _ _ _,
    runScan_results _ _ _, runScan_results _ _ _⟩
  · rw [hall]
    exact List.sorted_insertionSort condGE _
  · rw [hall, ← runScan_results]
    exact List.perm_insertionSort condGE _
  · intro k
    rw [hall, ← runScan_results]
    exact filter_sortByCondLen k _

/-- **C8.**  `screen` with an unrecognized strategy name fails with an error
naming the type, independent of the fetched data and without touching the
progress counter; each of the five valid names dispatches to the
corresponding strategy's scan. -/
theorem c8_screen_dispatch :
    (∀ (type : String) (inputs : List (CoinInfo × List Candle)) (prev : ℕ),
      type ∉ (["all", "bullish_breakout", "hma_crossover", "premium_hma",
        "premium_bullish"] : List String) →
      screenDispatch type inputs prev =
        (Except.error ("Invalid screening type: " ++ type), prev))
    ∧ (∀ (inputs : List (CoinInfo × List Candle)) (prev : ℕ),
      screenDispatch "all" inputs prev =
        (Except.ok (screenAllConditionsScan inputs).results,
          (screenAllConditionsScan inputs).progress)
      ∧ screenDispatch "bullish_breakout" inputs prev =
        (Except.ok (screenBullishBreakoutScan inputs).results,
          (screenBullishBreakoutScan inputs).progress)
      ∧ screenDispatch "hma_crossover" inputs prev =
        (Except.ok (screenHMACrossoverScan inputs).results,
          (screenHMACrossoverScan inputs).progress)
      ∧ screenDispatch "premium_hma" inputs prev =
        (Except.ok (screenPremiumHMAScan inputs).results,
          (screenPremiumHMAScan inputs).progress)
      ∧ screenDispatch "premium_bullish" inputs prev =
        (Except.ok (screenPremiumBullishScan inputs).results,
          (screenPremiumBullishScan inputs).progress)) := by
  constructor
  · intro type inputs prev hmem
    simp only [List.mem_cons, List.not_mem_nil, or_false, not_or] at hmem
    obtain ⟨h1, h2, h3, h4, h5⟩ := hmem
    unfold screenDispatch
    rw [if_neg h1, if_neg h2, if_neg h3, if_neg h4, if_neg h5]
  · intro inputs prev
    refine ⟨rfl, ?_, ?_, ?_, ?_⟩
    · unfold screenDispatch
      rw [if_neg (by decide), if_pos rfl]
    · unfold screenDispatch
      rw [if_neg (by decide), if_neg (by decide), if_pos rfl]
    · unfold screenDispatch
      rw [if_neg (by decide), if_neg (by decide), if_neg (by decide),
        if_pos rfl]
    · unfold screenDispatch
      rw [if_neg (by decide), if_neg (by decide), if_neg (by decide),
        if_neg (by decide), if_pos rfl]

/-- **C8, witness.**  A concrete invalid name is rejected with the error
naming it and the progress value untouched. -/
theorem c8_screen_dispatch_witness :
    screenDispatch "turbo" [] 7 =
      (Except.error ("Invalid screening type: " ++ "turbo"), 7) :=
  c8_screen_dispatch.1 "turbo" [] 7 (by decide)

/-- **C9.**  On an empty coin universe (including a failed universe fetch
degrading to the empty list) every strategy returns no results and the
progress counter stays 0 throughout the scan. -/
theorem c9_empty_universe :
    screenAllConditionsScan [] = { progress := 0, results := [] }
    ∧ screenBullishBreakoutScan [] = { progress := 0, results := [] }
    ∧ screenHMACrossoverScan [] = { progress := 0, results := [] }
    ∧ screenPremiumHMAScan [] = { progress := 0, results := [] }
    ∧ screenPremiumBullishScan [] = { progress := 0, results := [] }
    ∧ (∀ (minLen : ℕ)
        (eval : CoinInfo → List Candle → Option ScreeningResult) (k : ℕ),
        runScanPrefix minLen eval [] k = { progress := 0, results := [] }) := by
  refine ⟨rfl, rfl, rfl, rfl, rfl, ?_⟩
  intro minLen eval k
  unfold runScanPrefix
  rw [show (([] : List (CoinInfo × List Candle)).enum) = [] from rfl,
    List.take_nil]
  rfl

set_option maxRecDepth 100000 in
/-- **C10, counterexample.**  The claim says that for every series of length
22 or 23 the HMA(20) values at descending indices 0 and 1 are both NaN.  On
a constant 23-candle series, descending index 0 is chronological index 22 —
exactly the first defined HMA(20) position — so it is NOT NaN. -/
theorem c10_hma_minimum_counterexample :
    flat23.length = 23 ∧ (hma20Desc flat23).getD 0 none ≠ none :=
  ⟨by decide, of_decide_eq_true (by with_unfolding_all rfl)⟩

/-- **C10, amended.**  For a 22-candle series the HMA(20) values at
descending indices 0 and 1 are both NaN; for a 23-candle series descending
index 1 is NaN while index 0 is defined.  In both cases (and for any series
of at most 23 candles) `hma20_crossover` is false, so at least 24 candles are
required for it to hold, and the `premium_hma` and `hma_crossover` scans
produce no results when every fetched series has 23 or fewer candles. -/
theorem c10_hma_minimum_amended :
    (∀ candles : List Candle, candles.length = 22 →
      (hma20Desc candles).getD 0 none = none ∧
      (hma20Desc candles).getD 1 none = none)
    ∧ (∀ candles : List Candle, candles.length = 23 →
      (hma20Desc candles).getD 1 none = none ∧
      (hma20Desc candles).getD 0 none ≠ none)
    ∧ (∀ candles : List Candle, candles.length ≤ 23 →
      condHMACross candles = false)
    ∧ (∀ inputs : List (CoinInfo × List Candle),
      (∀ p ∈ inputs, (p.2 : List Candle).length ≤ 23) →
      (screenPremiumHMAScan inputs).results = [] ∧
      (screenHMACrossoverScan inputs).results = []) := by
  refine ⟨?_, ?_, ?_, ?_⟩
  · intro candles h22
    constructor
    · by_contra hne
      have := (hma20Desc_defined_iff candles 0 (by omega)).mp hne
      omega
    · exact hma20Desc_getD_one_none candles (by omega)
  · intro candles h23
    refine ⟨hma20Desc_getD_one_none candles (by omega), ?_⟩
    rw [hma20Desc_defined_iff candles 0 (by omega)]
    omega
  · intro candles h
    exact condHMACross_eq_false candles h
  · intro inputs hle
    constructor
    · show (runScan 22 evalPremiumHMA inputs).results = []
      rw [runScan_results]
      unfold encounterResults
      apply List.filterMap_eq_nil_iff.mpr
      intro ic hic
      obtain ⟨i, c, cd⟩ := ic
      have hmem := (List.mem_filter.mp hic).1
      have hm := List.mem_enum hmem
      have hxmem : (c, cd) ∈ inputs := by
        rw [hm.2]
        exact List.getElem_mem hm.1
      apply evalPremiumHMA_eq_none_of_short
      rw [length_normalizeCandles]
      exact hle (c, cd) hxmem
    · show (runScan 22 evalHMACrossover inputs).results = []
      rw [runScan_results]
      unfold encounterResults
      apply List.filterMap_eq_nil_iff.mpr
      intro ic hic
      obtain ⟨i, c, cd⟩ := ic
      have hmem := (List.mem_filter.mp hic).1
      have hm := List.mem_enum hmem
      have hxmem : (c, cd) ∈ inputs := by
        rw [hm.2]
        exact List.getElem_mem hm.1
      apply evalHMACrossover_eq_none_of_short
      rw [length_normalizeCandles]
      exact hle (c, cd) hxmem

/-- **C10, witness.**  The amended statement instantiated on concrete
constant series of lengths 22 and 23, and on a one-coin universe with 23
candles. -/
theorem c10_hma_minimum_amended_witness :
    ((hma20Desc flat22).getD 0 none = none ∧
      (hma20Desc flat22).getD 1 none = none)
    ∧ ((hma20Desc flat23).getD 1 none = none ∧
      (hma20Desc flat23).getD 0 none ≠ none)
    ∧ condHMACross flat23 = false
    ∧ ((screenPremiumHMAScan [(coinA, flat23)]).results = [] ∧
      (screenHMACrossoverScan [(coinA, flat23)]).results = []) :=
  ⟨c10_hma_minimum_amended.1 flat22 (by decide),
   c10_hma_minimum_amended.2.1 flat23 (by decide),
   c10_hma_minimum_amended.2.2.1 flat23 (by decide),
   c10_hma_minimum_amended.2.2.2 [(coinA, flat23)] (by decide)⟩

end Turtle
